import Mathlib

/-!
# robot-hook-dispatcher: the message-dispatch pipeline

A shallow embedding of `dispatcher.go`: message validation, HTTP forwarding and
the one-second speed control, with the clock, the network and the live
configuration made explicit.

* A `time.Time` is an integer, the instant in nanoseconds since the Unix epoch;
  the zero `time.Time{}` is the first instant of year 1. Instants are not
  bounded (a `time.Time` holds 64-bit seconds, 292 billion years either way).
* A `time.Duration` is a signed 64-bit count of nanoseconds: `Time.Sub`
  saturates at `maxDuration` and `minDuration`.
* Go `int` is `Int`, with `d.sentNum++` wrapping at 64 bits.
* An `error` is its message; `nil` is `none`.
* `logrus` output is not modelled.
-/

namespace Dispatcher

/-! ## Data model -/

/-- Payload bytes (`[]byte`). -/
abbrev Bytes := List Nat

/-- A Go `map[string]string`: entries with pairwise distinct keys. The order of
the list is the order in which `range` happens to visit the map. -/
structure GoMap where
  entries : List (String × String)
  nodup : (entries.map Prod.fst).Nodup

/-- Go `len(m)`. -/
def GoMap.len (m : GoMap) : Nat := m.entries.length

/-- Go `m[k]`: the value stored under `k`, the zero value `""` when absent. -/
def GoMap.get (m : GoMap) (k : String) : String :=
  (m.entries.lookup k).getD ""

/-- The constant `headerUserAgent`. -/
def headerUserAgent : String := "User-Agent"

/-- The message of the error returned for a bad header. -/
def errInvalidHeader : String := "unexpect message: invalid header"

/-- The message of the error returned for an empty payload. -/
def errEmptyPayload : String := "unexpect message: The payload is empty"

/-- Go `time.Second`, in nanoseconds. -/
def second : Int := 1000000000

/-- Go `time.maxDuration`: the largest `time.Duration`, about 292 years. -/
def maxDuration : Int := 2 ^ 63 - 1

/-- Go `time.minDuration`: the smallest `time.Duration`. -/
def minDuration : Int := -2 ^ 63

/-- Go `Time.Add`. -/
def timeAdd (t du : Int) : Int := t + du

/-- Go `Time.After`. -/
def timeAfter (t u : Int) : Bool := decide (t > u)

/-- Go `Time.Sub`: the duration `t - u`, saturated to the range of
`time.Duration`. -/
def timeSub (t u : Int) : Int :=
  if t - u > maxDuration then maxDuration
  else if t - u < minDuration then minDuration
  else t - u

/-- The zero `time.Time{}`, January 1 of year 1, 00:00:00 UTC, which is
62135596800 seconds before the Unix epoch. -/
def zeroTime : Int := -62135596800000000000

/-- Two-complement wrap of a Go `int` (64 bits). -/
def wrapInt64 (x : Int) : Int := (x + 2 ^ 63) % 2 ^ 64 - 2 ^ 63

/-- The fields of `dispatcher` that the pipeline reads or writes. The function
fields `hc` and `concurrentSize` are answered by `Env`. -/
structure State where
  topic : String
  endpoint : String
  userAgent : String
  startTime : Int
  sentNum : Int
deriving DecidableEq, Repr

/-! ## `validateMessage` -/

/-- The method `dispatcher.validateMessage`. -/
def validateMessage (d : State) (data : Bytes) (header : GoMap) : Option String :=
  if header.len = 0 ∨ header.get headerUserAgent ≠ d.userAgent then
    some errInvalidHeader
  else if data.length = 0 then
    some errEmptyPayload
  else
    none

/-! ## The outbound request -/

/-- Go `textproto.validHeaderFieldByte`: the token characters of RFC 7230. -/
def validHeaderFieldByte (c : Char) : Bool :=
  let n := c.toNat
  (48 ≤ n && n ≤ 57) || (97 ≤ n && n ≤ 122) || (65 ≤ n && n ≤ 90) ||
    n == 33 || n == 35 || n == 36 || n == 37 || n == 38 || n == 39 || n == 42 ||
    n == 43 || n == 45 || n == 46 || n == 94 || n == 95 || n == 96 || n == 124 ||
    n == 126

/-- The casing loop of Go `textproto.canonicalMIMEHeaderKey`: upper case for the
first letter and for a letter after a dash, lower case elsewhere. -/
def canonicalCase : Bool → List Char → List Char
  | _, [] => []
  | upper, c :: cs =>
    let n := c.toNat
    let c1 :=
      if upper && 97 ≤ n && n ≤ 122 then Char.ofNat (n - 32)
      else if !upper && 65 ≤ n && n ≤ 90 then Char.ofNat (n + 32)
      else c
    c1 :: canonicalCase (c1.toNat == 45) cs

/-- Go `textproto.CanonicalMIMEHeaderKey`: a key holding a byte that is not a
token character (a space included) is returned unchanged, any other key is put
in canonical case. -/
def canonicalMIMEHeaderKey (s : String) : String :=
  if s.data.all validHeaderFieldByte then String.mk (canonicalCase true s.data) else s

/-- Go `http.Header`, a `map[string][]string`, as an association list. -/
abbrev HttpHeader := List (String × List String)

/-- Go `h[key]` on an `http.Header`: the values under `key`, `nil` when absent. -/
def HttpHeader.values (h : HttpHeader) (key : String) : List String :=
  (h.lookup key).getD []

/-- The assignment `h[key] = append(h[key], value)`. -/
def HttpHeader.append : HttpHeader → String → String → HttpHeader
  | [], key, value => [(key, [value])]
  | (k, vs) :: rest, key, value =>
    if k = key then (k, vs ++ [value]) :: rest
    else (k, vs) :: HttpHeader.append rest key value

/-- Go `http.Header.Add`: the key is canonicalised, the value appended. -/
def HttpHeader.add (h : HttpHeader) (key value : String) : HttpHeader :=
  HttpHeader.append h (canonicalMIMEHeaderKey key) value

/-- The fields of `http.Request` that `send` sets. -/
structure Request where
  method : String
  url : String
  body : Bytes
  header : HttpHeader
deriving DecidableEq, Repr

/-- Go `http.MethodPost`. -/
def methodPost : String := "POST"

/-! ## Environment and effects -/

/-- What the collaborators answer during one `handle` call. -/
structure Env where
  /-- The error of parsing a URL in `http.NewRequest`, `none` when well formed. -/
  parseURL : String → Option String
  /-- The error returned by `hc.ForwardTo`, `none` on success. -/
  forwardTo : Request → Option String
  /-- The time `hc.ForwardTo` takes, in nanoseconds. -/
  latency : Nat
  /-- The result of `d.concurrentSize()`. -/
  size : Except String Int

/-- An observable action of the dispatcher. -/
inductive Event where
  /-- The call `hc.ForwardTo(req, nil)` started at instant `t`. -/
  | forward (t : Int) (req : Request)
  /-- The call `d.concurrentSize()`. -/
  | readSize
  /-- The call `time.Sleep(du)`. -/
  | sleep (du : Int)
deriving DecidableEq, Repr

/-- The clock and the actions performed so far. -/
structure World where
  clock : Int
  trace : List Event
deriving DecidableEq, Repr

/-- Go `time.Sleep`: the clock advances by the duration. -/
def timeSleep (du : Int) (w : World) : World :=
  { clock := w.clock + du, trace := w.trace ++ [Event.sleep du] }

/-- Go `http.NewRequest` for a method that is valid: it fails when the URL does
not parse and otherwise returns a request without headers. -/
def httpNewRequest (env : Env) (method url : String) (body : Bytes) :
    Except String Request :=
  match env.parseURL url with
  | some e => .error e
  | none => .ok { method := method, url := url, body := body, header := [] }

/-! ## The dispatcher's methods -/

/-- The method `dispatcher.send`. -/
def send (d : State) (env : Env) (w : World) (data : Bytes) (header : GoMap) :
    Option String × World :=
  match httpNewRequest env methodPost d.endpoint data with
  | .error err => (some err, w)
  | .ok req =>
    let req := header.entries.foldl
      (fun r kv => { r with header := r.header.add kv.1 kv.2 }) req
    (env.forwardTo req,
      { clock := w.clock + env.latency, trace := w.trace ++ [Event.forward w.clock req] })

/-- The method `dispatcher.dispatch`. -/
def dispatch (d : State) (env : Env) (w : World) (data : Bytes) (header : GoMap) :
    State × World :=
  match send d env w data header with
  | (some _, w1) => (d, w1)
  | (none, w1) => ({ d with sentNum := wrapInt64 (d.sentNum + 1) }, w1)

/-- The method `dispatcher.speedControl`. -/
def speedControl (d : State) (env : Env) (w : World) : State × World :=
  if d.sentNum = 1 then
    ({ d with startTime := w.clock }, w)
  else
    let w1 : World := { w with trace := w.trace ++ [Event.readSize] }
    match env.size with
    | .error _ => (d, w1)
    | .ok size =>
      if size > 0 ∧ d.sentNum ≥ size then
        let now := w1.clock
        let v := timeAdd d.startTime second
        let w2 := if timeAfter v now then timeSleep (timeSub v now) w1 else w1
        ({ d with sentNum := 0 }, w2)
      else
        (d, w1)

/-- The method `dispatcher.handle`: the returned error, the dispatcher and the
world after the call. -/
def handle (d : State) (env : Env) (w : World) (data : Bytes) (header : GoMap) :
    Option String × State × World :=
  match validateMessage d data header with
  | some err => (some err, d, w)
  | none =>
    let (d1, w1) := dispatch d env w data header
    let (d2, w2) := speedControl d1 env w1
    (none, d2, w2)

/-! ## Sequential runs -/

/-- One delivery: the message, the collaborators' answers during its `handle`
call, and the time elapsed since the previous call returned. -/
structure Call where
  data : Bytes
  header : GoMap
  env : Env
  gap : Nat

/-- One delivery: the clock advances by the gap, then `handle` runs. -/
def step (dw : State × World) (c : Call) : State × World :=
  (handle dw.1 c.env { dw.2 with clock := dw.2.clock + c.gap } c.data c.header).2

/-- The deliveries of a list, one after the other. -/
def run (dw : State × World) (cs : List Call) : State × World :=
  cs.foldl step dw

/-- The durations of the sleeps in a trace. -/
def sleeps : List Event → List Int
  | [] => []
  | Event.sleep du :: es => du :: sleeps es
  | _ :: es => sleeps es

/-- The instants of the forwards in a trace. -/
def forwardTimes : List Event → List Int
  | [] => []
  | Event.forward t _ :: es => t :: forwardTimes es
  | _ :: es => forwardTimes es

/-- The requests handed to `hc.ForwardTo` in a trace. -/
def forwards : List Event → List Request
  | [] => []
  | Event.forward _ req :: es => req :: forwards es
  | _ :: es => forwards es

/-- The number of ceiling reads in a trace. -/
def sizeReads : List Event → Nat
  | [] => 0
  | Event.readSize :: es => sizeReads es + 1
  | _ :: es => sizeReads es

/-- The number of instants of `ts` in the half-open interval `[lo, lo + second)`. -/
def countIn (lo : Int) (ts : List Int) : Nat :=
  (ts.filter (fun t => decide (lo ≤ t ∧ t < lo + second))).length

/-- The struct `configuration`, without the embedded Kafka settings. -/
structure Configuration where
  Topic : String
  UserAgent : String
  AccessEndpoint : String
  ConcurrentSize : Int

/-- The function `newDispatcher`: `sentNum` and `startTime` keep their zero
values, the counter 0 and the zero `time.Time{}`. -/
def newDispatcher (cfg : Configuration) : State :=
  { topic := cfg.Topic, endpoint := cfg.AccessEndpoint, userAgent := cfg.UserAgent,
    startTime := zeroTime, sentNum := 0 }

/-- Whether `handle` accepts and forwards the message of a delivery. -/
def forwarded (d : State) (c : Call) : Bool :=
  (validateMessage d c.data c.header).isNone &&
    (send d c.env { clock := 0, trace := [] } c.data c.header).1.isNone

/-- The header loop of `send`: every entry of the map is added to the request. -/
def addHeaders (req : Request) (entries : List (String × String)) : Request :=
  entries.foldl (fun r kv => { r with header := r.header.add kv.1 kv.2 }) req

/-- The request that `send` builds when `http.NewRequest` succeeds. -/
def buildRequest (d : State) (data : Bytes) (header : GoMap) : Request :=
  addHeaders { method := methodPost, url := d.endpoint, body := data, header := [] }
    header.entries

/-- The world after `hc.ForwardTo` has been called for a delivery. -/
def afterForward (d : State) (w : World) (c : Call) : World :=
  { clock := w.clock + c.gap + c.env.latency,
    trace := w.trace ++ [Event.forward (w.clock + c.gap) (buildRequest d c.data c.header)] }

/-- The window invariant of a run under ceiling `m`: the forwards so far split
into `old`, the last completed batch `prev` and the batch `cur` counted by
`sentNum`; the first forward of `prev` lies a second before everything after
`prev`, and no one-second interval holds more than `2 * m - 1` forwards. -/
structure WindowInv (m : Nat) (d : State) (w : World) (old prev cur : List Int) : Prop where
  times : forwardTimes w.trace = old ++ prev ++ cur
  count : d.sentNum = cur.length
  curlt : cur.length < m
  prevle : prev.length ≤ m
  clock : ∀ x ∈ prev ++ cur, x ≤ w.clock
  ordered : ∀ x ∈ prev, ∀ y ∈ cur, x ≤ y
  oldle : ∀ p, prev.head? = some p → ∀ x ∈ old, x ≤ p
  spaced : ∀ p, prev.head? = some p → p + second ≤ w.clock
  fresh : prev = [] → old = []
  stamp : ∀ f, cur.head? = some f → f ≤ d.startTime
  stamped : cur ≠ [] → d.startTime ≤ w.clock
  bound : ∀ T, countIn T (old ++ prev ++ cur) ≤ 2 * m - 1

/-! ## Sample inputs -/

/-- A configuration with user agent `bot`. -/
def sampleCfg : Configuration :=
  { Topic := "hook", UserAgent := "bot", AccessEndpoint := "http://robot/hook",
    ConcurrentSize := 3 }

/-- The empty header map. -/
def emptyHeader : GoMap := ⟨[], by decide⟩

/-- A header map that carries the expected user agent. -/
def botHeader : GoMap := ⟨[("User-Agent", "bot")], by decide⟩

/-- A header map with the expected user agent and a lower-case name. -/
def lowerHeader : GoMap := ⟨[("User-Agent", "bot"), ("x-id", "1")], by decide⟩

/-- A header map with two names that differ only in case. -/
def mixedHeader : GoMap := ⟨[("x-id", "1"), ("X-Id", "2")], by decide⟩

/-- A header map with another user agent. -/
def otherHeader : GoMap := ⟨[("User-Agent", "curl")], by decide⟩

/-- Collaborators that succeed at once, with the ceiling `c`. -/
def okEnv (c : Int) : Env :=
  { parseURL := fun _ => none, forwardTo := fun _ => none, latency := 0, size := .ok c }

/-- Collaborators whose forward fails, with the ceiling `c`. -/
def failEnv (c : Int) : Env :=
  { parseURL := fun _ => none, forwardTo := fun _ => some "connection refused",
    latency := 0, size := .ok c }

/-- A valid delivery after `gap` nanoseconds, forwarded at once, ceiling `c`. -/
def okCall (c : Int) (gap : Nat) : Call :=
  { data := [1], header := botHeader, env := okEnv c, gap := gap }

/-- A valid delivery after `gap` nanoseconds whose forward fails, ceiling `c`. -/
def failCall (c : Int) (gap : Nat) : Call :=
  { data := [1], header := botHeader, env := failEnv c, gap := gap }

/-- An instant in November 2023, in nanoseconds since the Unix epoch. -/
def sampleNow : Int := 1700000000000000000

/-- The dispatcher after `n` forwards counted in a window stamped at
`sampleNow`. -/
def counted (n : Int) : State :=
  { newDispatcher sampleCfg with startTime := sampleNow, sentNum := n }

/-! ## Auxiliary lemmas -/

theorem lookup_eq_some_iff_mem (l : List (String × String))
    (h : (l.map Prod.fst).Nodup) (k v : String) :
    l.lookup k = some v ↔ (k, v) ∈ l := by
  induction l with
  | nil => simp
  | cons a l ih =>
    obtain ⟨k1, v1⟩ := a
    simp only [List.map_cons, List.nodup_cons, List.mem_map, not_exists, not_and] at h
    by_cases hk : k = k1
    · subst hk
      simp only [List.lookup_cons, beq_self_eq_true, Option.some.injEq, List.mem_cons,
        Prod.mk.injEq, true_and]
      constructor
      · intro e; exact Or.inl e.symm
      · rintro (e | hm)
        · exact e.symm
        · exact absurd rfl (h.1 (k, v) hm)
    · have hb : (k == k1) = false := by simpa using hk
      simp only [List.lookup_cons, hb, List.mem_cons, Prod.mk.injEq, hk, false_and, false_or]
      exact ih h.2

theorem lookup_eq_none_iff_not_mem (l : List (String × String)) (k : String) :
    l.lookup k = none ↔ ∀ v, (k, v) ∉ l := by
  induction l with
  | nil => simp
  | cons a l ih =>
    obtain ⟨k1, v1⟩ := a
    by_cases hk : k = k1
    · subst hk
      simp only [List.lookup_cons, beq_self_eq_true, List.mem_cons, Prod.mk.injEq, true_and,
        not_or, false_iff, not_forall, not_and, reduceCtorEq]
      exact ⟨v1, fun h => absurd rfl h⟩
    · have hb : (k == k1) = false := by simpa using hk
      simp only [List.lookup_cons, hb, List.mem_cons, Prod.mk.injEq, hk, false_and, false_or]
      exact ih

theorem sleeps_append (xs ys : List Event) : sleeps (xs ++ ys) = sleeps xs ++ sleeps ys := by
  induction xs with
  | nil => rfl
  | cons e xs ih => cases e <;> simp [sleeps, ih]

theorem forwardTimes_append (xs ys : List Event) :
    forwardTimes (xs ++ ys) = forwardTimes xs ++ forwardTimes ys := by
  induction xs with
  | nil => rfl
  | cons e xs ih => cases e <;> simp [forwardTimes, ih]

theorem forwards_append (xs ys : List Event) :
    forwards (xs ++ ys) = forwards xs ++ forwards ys := by
  induction xs with
  | nil => rfl
  | cons e xs ih => cases e <;> simp [forwards, ih]

theorem sizeReads_append (xs ys : List Event) :
    sizeReads (xs ++ ys) = sizeReads xs + sizeReads ys := by
  induction xs with
  | nil => simp [sizeReads]
  | cons e xs ih => cases e <;> simp [sizeReads, ih, Nat.add_right_comm]

/-- The request that `send` builds once `http.NewRequest` has succeeded. -/
theorem send_world (d : State) (env : Env) (w : World) (data : Bytes) (header : GoMap) :
    (send d env w data header).2 = w ∨
      ∃ req, (send d env w data header).2 =
        { clock := w.clock + env.latency, trace := w.trace ++ [Event.forward w.clock req] } := by
  unfold send
  split
  · exact Or.inl rfl
  · exact Or.inr ⟨_, rfl⟩

theorem send_sleeps (d : State) (env : Env) (w : World) (data : Bytes) (header : GoMap) :
    sleeps (send d env w data header).2.trace = sleeps w.trace := by
  rcases send_world d env w data header with h | ⟨req, h⟩ <;> rw [h]
  simp [sleeps_append, sleeps]

theorem send_sizeReads (d : State) (env : Env) (w : World) (data : Bytes) (header : GoMap) :
    sizeReads (send d env w data header).2.trace = sizeReads w.trace := by
  rcases send_world d env w data header with h | ⟨req, h⟩ <;> rw [h]
  simp [sizeReads_append, sizeReads]

theorem dispatch_failed (d : State) (env : Env) (w : World) (data : Bytes) (header : GoMap)
    (e : String) (hs : (send d env w data header).1 = some e) :
    dispatch d env w data header = (d, (send d env w data header).2) := by
  unfold dispatch
  split
  · next e1 w1 h => rw [h]
  · next w1 h => rw [h] at hs; cases hs

theorem dispatch_ok (d : State) (env : Env) (w : World) (data : Bytes) (header : GoMap)
    (hs : (send d env w data header).1 = none) :
    dispatch d env w data header =
      ({ d with sentNum := wrapInt64 (d.sentNum + 1) }, (send d env w data header).2) := by
  unfold dispatch
  split
  · next e1 w1 h => rw [h] at hs; cases hs
  · next w1 h => rw [h]

theorem handle_valid (d : State) (env : Env) (w : World) (data : Bytes) (header : GoMap)
    (hv : validateMessage d data header = none) :
    handle d env w data header =
      (none, speedControl (dispatch d env w data header).1 env
        (dispatch d env w data header).2) := by
  unfold handle
  rw [hv]

theorem speedControl_one (d : State) (env : Env) (w : World) (h : d.sentNum = 1) :
    speedControl d env w = ({ d with startTime := w.clock }, w) := by
  unfold speedControl
  rw [if_pos h]

theorem speedControl_error (d : State) (env : Env) (w : World) (e : String)
    (h : d.sentNum ≠ 1) (hsz : env.size = .error e) :
    speedControl d env w = (d, { w with trace := w.trace ++ [Event.readSize] }) := by
  unfold speedControl
  rw [if_neg h]
  simp only [hsz]

theorem speedControl_below (d : State) (env : Env) (w : World) (c : Int)
    (h : d.sentNum ≠ 1) (hsz : env.size = .ok c) (hc : ¬ (c > 0 ∧ d.sentNum ≥ c)) :
    speedControl d env w = (d, { w with trace := w.trace ++ [Event.readSize] }) := by
  unfold speedControl
  rw [if_neg h]
  simp only [hsz, if_neg hc]

theorem speedControl_reached (d : State) (env : Env) (w : World) (c : Int)
    (h : d.sentNum ≠ 1) (hsz : env.size = .ok c) (hc : c > 0 ∧ d.sentNum ≥ c) :
    speedControl d env w =
      ({ d with sentNum := 0 },
        if d.startTime + second > w.clock then
          timeSleep (timeSub (d.startTime + second) w.clock)
            { w with trace := w.trace ++ [Event.readSize] }
        else { w with trace := w.trace ++ [Event.readSize] }) := by
  unfold speedControl
  rw [if_neg h]
  simp only [hsz, if_pos hc, timeAdd, timeAfter, decide_eq_true_eq]

theorem timeSub_ahead (t u : Int) (h : t > u) : timeSub t u = min (t - u) maxDuration := by
  unfold timeSub maxDuration minDuration
  split
  · rw [min_eq_right (by omega)]
  · rw [if_neg (by omega), min_eq_left (by omega)]

theorem timeSub_small (t u : Int) (h0 : u ≤ t) (h1 : t - u ≤ second) : timeSub t u = t - u := by
  unfold timeSub maxDuration minDuration
  unfold second at h1
  rw [if_neg (by omega), if_neg (by omega)]

theorem send_fst_eq (d d1 : State) (env : Env) (w w1 : World) (data : Bytes)
    (header : GoMap) (he : d1.endpoint = d.endpoint) :
    (send d1 env w1 data header).1 = (send d env w data header).1 := by
  unfold send
  rw [he]
  split <;> rfl

theorem validateMessage_eq (d d1 : State) (data : Bytes) (header : GoMap)
    (hu : d1.userAgent = d.userAgent) :
    validateMessage d1 data header = validateMessage d data header := by
  unfold validateMessage
  rw [hu]

theorem forwarded_eq (d d1 : State) (c : Call) (hu : d1.userAgent = d.userAgent)
    (he : d1.endpoint = d.endpoint) : forwarded d1 c = forwarded d c := by
  unfold forwarded
  rw [validateMessage_eq d d1 _ _ hu, send_fst_eq d d1 _ _ _ _ _ he]

theorem speedControl_fields (d : State) (env : Env) (w : World) :
    (speedControl d env w).1.userAgent = d.userAgent ∧
    (speedControl d env w).1.endpoint = d.endpoint := by
  unfold speedControl
  split
  · exact ⟨rfl, rfl⟩
  · simp only
    split
    · exact ⟨rfl, rfl⟩
    · split <;> exact ⟨rfl, rfl⟩

theorem dispatch_fields (d : State) (env : Env) (w : World) (data : Bytes) (header : GoMap) :
    (dispatch d env w data header).1.userAgent = d.userAgent ∧
    (dispatch d env w data header).1.endpoint = d.endpoint := by
  unfold dispatch
  split <;> exact ⟨rfl, rfl⟩

theorem handle_fields (d : State) (env : Env) (w : World) (data : Bytes) (header : GoMap) :
    (handle d env w data header).2.1.userAgent = d.userAgent ∧
    (handle d env w data header).2.1.endpoint = d.endpoint := by
  cases hv : validateMessage d data header with
  | some err =>
    have e : handle d env w data header = (some err, d, w) := by
      unfold handle
      rw [hv]
    rw [e]
    exact ⟨rfl, rfl⟩
  | none =>
    rw [handle_valid d env w data header hv]
    have h1 := speedControl_fields (dispatch d env w data header).1 env
      (dispatch d env w data header).2
    have h2 := dispatch_fields d env w data header
    exact ⟨h1.1.trans h2.1, h1.2.trans h2.2⟩

theorem speedControl_disabled (d : State) (env : Env) (w : World)
    (h : ∀ v, env.size = .ok v → v ≤ 0) :
    (speedControl d env w).1.sentNum = d.sentNum ∧
    sleeps (speedControl d env w).2.trace = sleeps w.trace := by
  by_cases h1 : d.sentNum = 1
  · rw [speedControl_one _ _ _ h1]
    exact ⟨rfl, rfl⟩
  · cases hsz : env.size with
    | error e1 =>
      rw [speedControl_error _ _ _ e1 h1 hsz]
      simp [sleeps_append, sleeps]
    | ok c =>
      have hc : ¬ (c > 0 ∧ d.sentNum ≥ c) := fun hh => by
        have := h c hsz
        omega
      rw [speedControl_below _ _ _ c h1 hsz hc]
      simp [sleeps_append, sleeps]

theorem step_disabled (dw : State × World) (c : Call)
    (h : ∀ v, c.env.size = .ok v → v ≤ 0) :
    sleeps (step dw c).2.trace = sleeps dw.2.trace ∧
    (step dw c).1.sentNum =
      (if forwarded dw.1 c then wrapInt64 (dw.1.sentNum + 1) else dw.1.sentNum) := by
  obtain ⟨d, w⟩ := dw
  unfold step
  simp only
  cases hv : validateMessage d c.data c.header with
  | some err =>
    have e : handle d c.env { w with clock := w.clock + c.gap } c.data c.header =
        (some err, d, { w with clock := w.clock + c.gap }) := by
      unfold handle
      rw [hv]
    rw [e]
    simp [forwarded, hv]
  | none =>
    rw [handle_valid d c.env _ c.data c.header hv]
    have hsc := speedControl_disabled
      (dispatch d c.env { w with clock := w.clock + c.gap } c.data c.header).1 c.env
      (dispatch d c.env { w with clock := w.clock + c.gap } c.data c.header).2 h
    simp only
    rw [hsc.1, hsc.2]
    have hf := send_fst_eq d d c.env { w with clock := w.clock + c.gap }
      { clock := 0, trace := [] } c.data c.header rfl
    cases hs : (send d c.env { w with clock := w.clock + c.gap } c.data c.header).1 with
    | some e1 =>
      rw [dispatch_failed d c.env _ c.data c.header e1 hs]
      rw [hs] at hf
      simp [forwarded, hv, hf, send_sleeps]
    | none =>
      rw [dispatch_ok d c.env _ c.data c.header hs]
      rw [hs] at hf
      simp [forwarded, hv, hf, send_sleeps]

theorem append_values (h : HttpHeader) (key value k : String) :
    HttpHeader.values (HttpHeader.append h key value) k =
      if key = k then HttpHeader.values h k ++ [value] else HttpHeader.values h k := by
  induction h with
  | nil =>
    by_cases hk : key = k
    · subst hk
      simp [HttpHeader.append, HttpHeader.values, List.lookup]
    · have hb : (k == key) = false := by simpa using fun e : k = key => hk e.symm
      simp [HttpHeader.append, HttpHeader.values, List.lookup, hk, hb]
  | cons a h ih =>
    obtain ⟨k1, vs⟩ := a
    unfold HttpHeader.append
    by_cases h1 : k1 = key
    · subst h1
      rw [if_pos rfl]
      by_cases hk : k1 = k
      · subst hk
        simp [HttpHeader.values, List.lookup]
      · have hb : (k == k1) = false := by simpa using fun e : k = k1 => hk e.symm
        simp [HttpHeader.values, List.lookup, hk, hb]
    · rw [if_neg h1]
      by_cases hk : k = k1
      · subst hk
        have hne : ¬ key = k := fun e => h1 e.symm
        simp [HttpHeader.values, List.lookup, hne]
      · have hb : (k == k1) = false := by simpa using hk
        have ih1 := ih
        simp only [HttpHeader.values] at ih1 ⊢
        simp only [List.lookup, hb]
        exact ih1

theorem addHeaders_fields (req : Request) (entries : List (String × String)) :
    (addHeaders req entries).method = req.method ∧
    (addHeaders req entries).url = req.url ∧
    (addHeaders req entries).body = req.body := by
  induction entries generalizing req with
  | nil => exact ⟨rfl, rfl, rfl⟩
  | cons kv es ih =>
    have h := ih { req with header := req.header.add kv.1 kv.2 }
    exact h

theorem addHeaders_values (req : Request) (entries : List (String × String)) (k : String) :
    (addHeaders req entries).header.values k =
      req.header.values k ++
        (entries.filter (fun kv => decide (canonicalMIMEHeaderKey kv.1 = k))).map Prod.snd := by
  induction entries generalizing req with
  | nil => simp [addHeaders]
  | cons kv es ih =>
    have h := ih { req with header := req.header.add kv.1 kv.2 }
    have e : addHeaders req (kv :: es) =
        addHeaders { req with header := req.header.add kv.1 kv.2 } es := rfl
    rw [e, h]
    simp only [HttpHeader.add, append_values]
    by_cases hk : canonicalMIMEHeaderKey kv.1 = k
    · simp [List.filter_cons, hk]
    · simp [List.filter_cons, hk]

theorem send_eq (d : State) (env : Env) (w : World) (data : Bytes) (header : GoMap)
    (hurl : env.parseURL d.endpoint = none) :
    send d env w data header =
      (env.forwardTo (addHeaders
          { method := methodPost, url := d.endpoint, body := data, header := [] }
          header.entries),
        { clock := w.clock + env.latency,
          trace := w.trace ++ [Event.forward w.clock (addHeaders
            { method := methodPost, url := d.endpoint, body := data, header := [] }
            header.entries)] }) := by
  unfold send httpNewRequest
  rw [hurl]
  rfl

theorem send_ok_parse (d : State) (env : Env) (w : World) (data : Bytes) (header : GoMap)
    (hs : (send d env w data header).1 = none) : env.parseURL d.endpoint = none := by
  cases hp : env.parseURL d.endpoint with
  | none => rfl
  | some e =>
    unfold send httpNewRequest at hs
    rw [hp] at hs
    cases hs

theorem wrapInt64_small (x : Int) (h0 : -2 ^ 63 ≤ x) (h1 : x < 2 ^ 63) : wrapInt64 x = x := by
  unfold wrapInt64
  omega

/-- A delivery that is accepted and forwarded: the counter is incremented, the
forward is traced at the instant of arrival, and `speedControl` runs. -/
theorem step_forwarded (d : State) (w : World) (c : Call) (hf : forwarded d c = true) :
    step (d, w) c =
      speedControl { d with sentNum := wrapInt64 (d.sentNum + 1) } c.env
        (afterForward d w c) := by
  unfold forwarded at hf
  simp only [Bool.and_eq_true, Option.isNone_iff_eq_none] at hf
  obtain ⟨hv, hs0⟩ := hf
  have hs : (send d c.env { w with clock := w.clock + c.gap } c.data c.header).1 = none := by
    rw [send_fst_eq d d c.env { clock := 0, trace := [] } _ c.data c.header rfl]
    exact hs0
  have hp := send_ok_parse d c.env _ c.data c.header hs
  unfold step
  simp only
  rw [handle_valid d c.env _ c.data c.header hv, dispatch_ok d c.env _ c.data c.header hs,
    send_eq d c.env _ c.data c.header hp]
  rfl

theorem step_first (d : State) (w : World) (c : Call) (hf : forwarded d c = true)
    (h0 : d.sentNum = 0) :
    step (d, w) c =
      ({ d with sentNum := 1, startTime := w.clock + c.gap + c.env.latency },
        afterForward d w c) := by
  rw [step_forwarded d w c hf, h0]
  have e : wrapInt64 (0 + 1) = 1 := by decide
  rw [e, speedControl_one _ _ _ rfl]
  rfl

theorem step_counted (d : State) (w : World) (c : Call) (k : Int)
    (hf : forwarded d c = true) (hsz : c.env.size = .ok k)
    (h1 : 1 ≤ d.sentNum) (h2 : d.sentNum + 1 < k) (h3 : k < 2 ^ 63) :
    step (d, w) c =
      ({ d with sentNum := d.sentNum + 1 },
        { afterForward d w c with
          trace := (afterForward d w c).trace ++ [Event.readSize] }) := by
  rw [step_forwarded d w c hf, wrapInt64_small _ (by omega) (by omega)]
  rw [speedControl_below _ _ _ k (by simp only; omega) hsz (by simp only; omega)]

theorem step_throttled (d : State) (w : World) (c : Call) (k : Int)
    (hf : forwarded d c = true) (hsz : c.env.size = .ok k) (hk : 0 < k)
    (h1 : 1 ≤ d.sentNum) (h2 : k ≤ d.sentNum + 1) (h3 : d.sentNum + 1 < 2 ^ 63) :
    step (d, w) c =
      ({ d with sentNum := 0 },
        if d.startTime + second > (afterForward d w c).clock then
          timeSleep (timeSub (d.startTime + second) (afterForward d w c).clock)
            { afterForward d w c with
              trace := (afterForward d w c).trace ++ [Event.readSize] }
        else
          { afterForward d w c with
            trace := (afterForward d w c).trace ++ [Event.readSize] }) := by
  rw [step_forwarded d w c hf, wrapInt64_small _ (by omega) (by omega)]
  rw [speedControl_reached _ _ _ k (by simp only; omega) hsz ⟨hk, by simp only; omega⟩]

theorem countIn_append (T : Int) (xs ys : List Int) :
    countIn T (xs ++ ys) = countIn T xs + countIn T ys := by
  simp [countIn, List.filter_append]

theorem countIn_le_length (T : Int) (xs : List Int) : countIn T xs ≤ xs.length := by
  unfold countIn
  exact List.length_filter_le _ _

theorem countIn_eq_zero (T : Int) (xs : List Int) (h : ∀ x ∈ xs, x < T) :
    countIn T xs = 0 := by
  unfold countIn
  rw [List.length_eq_zero, List.filter_eq_nil_iff]
  intro x hx
  have := h x hx
  simp only [decide_eq_true_eq, not_and, not_lt]
  intro h1
  omega

theorem countIn_cons_lt (T p : Int) (xs : List Int) (h : p < T) :
    countIn T (p :: xs) = countIn T xs := by
  have e : countIn T (p :: xs) = countIn T [p] + countIn T xs := countIn_append T [p] xs
  rw [e, countIn_eq_zero T [p] (by simpa using h)]
  omega

theorem countIn_snoc_bound (m : Nat) (old prev cur : List Int) (clock t T : Int)
    (ht : clock ≤ t) (hcur : cur.length < m) (hprev : prev.length ≤ m)
    (holdle : ∀ p, prev.head? = some p → ∀ x ∈ old, x ≤ p)
    (hsp : ∀ p, prev.head? = some p → p + second ≤ clock)
    (hfresh : prev = [] → old = [])
    (hb : countIn T (old ++ prev ++ cur) ≤ 2 * m - 1) :
    countIn T (old ++ prev ++ cur ++ [t]) ≤ 2 * m - 1 := by
  rw [countIn_append]
  by_cases hin : T ≤ t ∧ t < T + second
  · have h1 : countIn T [t] ≤ 1 := countIn_le_length T [t]
    cases prev with
    | nil =>
      rw [hfresh rfl]
      have h2 := countIn_le_length T cur
      simp only [List.nil_append]
      omega
    | cons p ps =>
      have hp : p < T := by
        have := hsp p rfl
        omega
      have h2 : countIn T old = 0 :=
        countIn_eq_zero T old (fun x hx => by have := holdle p rfl x hx; omega)
      have h3 := countIn_le_length T ps
      have h4 := countIn_le_length T cur
      rw [countIn_append, countIn_append, h2, countIn_cons_lt T p ps hp]
      simp only [List.length_cons] at hprev
      omega
  · have h1 : countIn T [t] = 0 := by
      unfold countIn
      rw [List.length_eq_zero, List.filter_eq_nil_iff]
      intro x hx
      simp only [List.mem_singleton] at hx
      subst hx
      simpa using hin
    omega

theorem speedControl_forwardTimes (d : State) (env : Env) (w : World) :
    forwardTimes (speedControl d env w).2.trace = forwardTimes w.trace := by
  unfold speedControl
  split
  · rfl
  · simp only
    split
    · simp [forwardTimes_append, forwardTimes]
    · split
      · split <;> simp [timeSleep, forwardTimes_append, forwardTimes]
      · simp [forwardTimes_append, forwardTimes]

theorem step_forwardTimes (d : State) (w : World) (c : Call) (hf : forwarded d c = true) :
    forwardTimes (step (d, w) c).2.trace = forwardTimes w.trace ++ [w.clock + c.gap] := by
  rw [step_forwarded d w c hf, speedControl_forwardTimes]
  simp [afterForward, forwardTimes_append, forwardTimes]

theorem step_fields (d : State) (w : World) (c : Call) :
    (step (d, w) c).1.userAgent = d.userAgent ∧ (step (d, w) c).1.endpoint = d.endpoint :=
  handle_fields d c.env { w with clock := w.clock + c.gap } c.data c.header

/-- The effect on the dispatcher of a forwarded delivery under ceiling `k`, when
`sentNum` counts a batch that the delivery does not complete. -/
theorem step_open (m : Nat) (k : Int) (hm : (m : Int) = max k 2) (hk2 : k < 2 ^ 63)
    (d : State) (w : World) (c : Call) (n : Nat) (hn : d.sentNum = n) (hfull : n + 1 < m)
    (hf : forwarded d c = true) (hsz : c.env.size = .ok k) :
    (step (d, w) c).1.sentNum = n + 1 ∧
    (step (d, w) c).2.clock = w.clock + c.gap + c.env.latency ∧
    (n = 0 → (step (d, w) c).1.startTime = w.clock + c.gap + c.env.latency) ∧
    (n ≠ 0 → (step (d, w) c).1.startTime = d.startTime) := by
  by_cases h0 : n = 0
  · subst h0
    rw [step_first d w c hf (by simpa using hn)]
    exact ⟨by simp, rfl, fun _ => rfl, fun h => absurd rfl h⟩
  · have hk3 : (m : Int) = k := by
      rcases max_choice k 2 with h | h
      · rw [h] at hm; exact hm
      · rw [h] at hm; omega
    rw [step_counted d w c k hf hsz (by omega) (by omega) hk2]
    exact ⟨by simp [hn], rfl, fun h => absurd h h0, fun _ => rfl⟩

/-- The effect on the dispatcher of the forwarded delivery that completes a
batch under ceiling `k`: the counter is reset and the clock is at least one
second past the start time. -/
theorem step_full (m : Nat) (k : Int) (hm : (m : Int) = max k 2) (hk : 0 < k)
    (hk2 : k < 2 ^ 63)
    (d : State) (w : World) (c : Call) (n : Nat) (hn : d.sentNum = n) (hfull : n + 1 = m)
    (hst : d.startTime ≤ w.clock)
    (hf : forwarded d c = true) (hsz : c.env.size = .ok k) :
    (step (d, w) c).1.sentNum = 0 ∧
    w.clock + c.gap + c.env.latency ≤ (step (d, w) c).2.clock ∧
    d.startTime + second ≤ (step (d, w) c).2.clock := by
  have h2 : (2 : Int) ≤ m := by rw [hm]; exact le_max_right k 2
  have hkm : k ≤ m := by rw [hm]; exact le_max_left k 2
  have hm3 : (m : Int) < 2 ^ 63 := by
    rcases max_choice k 2 with h | h
    · rw [h] at hm; omega
    · rw [h] at hm; omega
  rw [step_throttled d w c k hf hsz hk (by omega) (by omega) (by omega)]
  by_cases hd : d.startTime + second > (afterForward d w c).clock
  · rw [if_pos hd]
    have hsub : timeSub (d.startTime + second) (afterForward d w c).clock =
        d.startTime + second - (afterForward d w c).clock :=
      timeSub_small _ _ (by omega) (by simp only [afterForward]; omega)
    rw [hsub]
    simp only [afterForward, timeSleep] at hd ⊢
    refine ⟨trivial, ?_, ?_⟩ <;> omega
  · rw [if_neg hd]
    simp only [afterForward] at hd ⊢
    refine ⟨trivial, ?_, ?_⟩ <;> omega

theorem windowInv_step (m : Nat) (k : Int) (hm : (m : Int) = max k 2) (hk : 0 < k)
    (hk2 : k < 2 ^ 63) (d : State) (w : World) (old prev cur : List Int)
    (inv : WindowInv m d w old prev cur) (c : Call)
    (hf : forwarded d c = true) (hsz : c.env.size = .ok k) :
    ∃ old1 prev1 cur1, WindowInv m (step (d, w) c).1 (step (d, w) c).2 old1 prev1 cur1 := by
  have h2 : (2 : Int) ≤ m := by rw [hm]; exact le_max_right k 2
  have htimes := step_forwardTimes d w c hf
  have hb : ∀ T, countIn T (old ++ prev ++ cur ++ [w.clock + c.gap]) ≤ 2 * m - 1 :=
    fun T => countIn_snoc_bound m old prev cur w.clock _ T (by omega) inv.curlt inv.prevle
      inv.oldle inv.spaced inv.fresh (inv.bound T)
  have hcurlt := inv.curlt
  by_cases hfull : cur.length + 1 < m
  · obtain ⟨e1, e2, e3, e4⟩ := step_open m k hm hk2 d w c cur.length inv.count hfull hf hsz
    refine ⟨old, prev, cur ++ [w.clock + c.gap], ?_⟩
    refine { times := ?_, count := ?_, curlt := ?_, prevle := inv.prevle, clock := ?_,
             ordered := ?_, oldle := inv.oldle, spaced := ?_, fresh := inv.fresh,
             stamp := ?_, stamped := ?_, bound := ?_ }
    · rw [htimes, inv.times]; simp
    · rw [e1]; simp
    · simpa using hfull
    · intro x hx
      rw [e2]
      rcases List.mem_append.1 hx with hx1 | hx1
      · have := inv.clock x (List.mem_append_left _ hx1); omega
      · rcases List.mem_append.1 hx1 with hx2 | hx2
        · have := inv.clock x (List.mem_append_right _ hx2); omega
        · simp only [List.mem_singleton] at hx2
          omega
    · intro x hx y hy
      rcases List.mem_append.1 hy with hy1 | hy1
      · exact inv.ordered x hx y hy1
      · simp only [List.mem_singleton] at hy1
        have := inv.clock x (List.mem_append_left _ hx)
        omega
    · intro p hp
      rw [e2]
      have := inv.spaced p hp
      omega
    · intro f hfh
      cases hcur : cur with
      | nil =>
        rw [hcur] at hfh e3
        simp only [List.nil_append, List.head?_cons, Option.some.injEq] at hfh
        rw [e3 rfl]
        omega
      | cons a rest =>
        rw [hcur] at hfh e4
        simp only [List.cons_append, List.head?_cons, Option.some.injEq] at hfh
        rw [e4 (by simp)]
        have := inv.stamp a (by rw [hcur]; rfl)
        omega
    · intro _
      rw [e2]
      by_cases hnil : cur = []
      · rw [e3 (by rw [hnil]; rfl)]
      · rw [e4 (by simpa using hnil)]
        have := inv.stamped hnil
        omega
    · intro T
      have := hb T
      simpa [List.append_assoc] using this
  · have hlen : cur.length + 1 = m := by omega
    have hne : cur ≠ [] := by
      intro hnil
      rw [hnil] at hlen
      simp only [List.length_nil] at hlen
      omega
    obtain ⟨e1, e2, e3⟩ := step_full m k hm hk hk2 d w c cur.length inv.count hlen
      (inv.stamped hne) hf hsz
    refine ⟨old ++ prev, cur ++ [w.clock + c.gap], [], ?_⟩
    cases hcur : cur with
    | nil =>
      rw [hcur] at hlen
      simp only [List.length_nil] at hlen
      omega
    | cons a rest =>
      have ha : a ∈ cur := by rw [hcur]; exact List.mem_cons_self _ _
      have hstamp := inv.stamp a (by rw [hcur]; rfl)
      rw [← hcur]
      refine { times := ?_, count := ?_, curlt := ?_, prevle := ?_, clock := ?_,
               ordered := ?_, oldle := ?_, spaced := ?_, fresh := ?_,
               stamp := ?_, stamped := ?_, bound := ?_ }
      · rw [htimes, inv.times]; simp
      · rw [e1]; simp
      · simp only [List.length_nil]; omega
      · simp only [List.length_append, List.length_singleton]; omega
      · intro x hx
        simp only [List.append_nil] at hx
        rcases List.mem_append.1 hx with hx1 | hx1
        · have := inv.clock x (List.mem_append_right _ hx1); omega
        · simp only [List.mem_singleton] at hx1
          omega
      · intro x _ y hy
        cases hy
      · intro p hp x hx
        have hpa : p = a := by
          rw [hcur] at hp
          simpa using hp.symm
        subst hpa
        rcases List.mem_append.1 hx with hx1 | hx1
        · cases hprev : prev with
          | nil =>
            have := inv.fresh hprev
            rw [this] at hx1
            cases hx1
          | cons p0 ps =>
            have h1 := inv.oldle p0 (by rw [hprev]; rfl) x hx1
            have h3 := inv.ordered p0 (by rw [hprev]; exact List.mem_cons_self _ _) p ha
            omega
        · exact inv.ordered x hx1 p ha
      · intro p hp
        have hpa : p = a := by
          rw [hcur] at hp
          simpa using hp.symm
        subst hpa
        omega
      · intro h
        simp at h
      · intro f hfh
        cases hfh
      · intro h
        exact absurd rfl h
      · intro T
        have := hb T
        simpa [List.append_assoc] using this

theorem windowInv_run (m : Nat) (k : Int) (hm : (m : Int) = max k 2) (hk : 0 < k)
    (hk2 : k < 2 ^ 63) (cs : List Call) (d : State) (w : World) (old prev cur : List Int)
    (inv : WindowInv m d w old prev cur)
    (hcs : ∀ c ∈ cs, forwarded d c = true ∧ c.env.size = .ok k) :
    ∃ old1 prev1 cur1, WindowInv m (run (d, w) cs).1 (run (d, w) cs).2 old1 prev1 cur1 := by
  induction cs generalizing d w old prev cur with
  | nil => exact ⟨old, prev, cur, inv⟩
  | cons c cs ih =>
    obtain ⟨hf, hsz⟩ := hcs c (List.mem_cons_self _ _)
    obtain ⟨old1, prev1, cur1, inv1⟩ := windowInv_step m k hm hk hk2 d w old prev cur inv c hf hsz
    have hfield := step_fields d w c
    have hrun : run (d, w) (c :: cs) = run ((step (d, w) c).1, (step (d, w) c).2) cs := rfl
    rw [hrun]
    refine ih (step (d, w) c).1 (step (d, w) c).2 old1 prev1 cur1 inv1 ?_
    intro c1 hc1
    obtain ⟨hf1, hsz1⟩ := hcs c1 (List.mem_cons_of_mem _ hc1)
    exact ⟨(forwarded_eq d _ c1 hfield.1 hfield.2).trans hf1, hsz1⟩

theorem run_forwardTimes_length (cs : List Call) (d : State) (w : World)
    (hcs : ∀ c ∈ cs, forwarded d c = true) :
    (forwardTimes (run (d, w) cs).2.trace).length =
      (forwardTimes w.trace).length + cs.length := by
  induction cs generalizing d w with
  | nil => rfl
  | cons c cs ih =>
    have hf := hcs c (List.mem_cons_self _ _)
    have hfield := step_fields d w c
    have hrun : run (d, w) (c :: cs) = run ((step (d, w) c).1, (step (d, w) c).2) cs := rfl
    rw [hrun, ih (step (d, w) c).1 (step (d, w) c).2
      (fun c1 hc1 => (forwarded_eq d _ c1 hfield.1 hfield.2).trans
        (hcs c1 (List.mem_cons_of_mem _ hc1))),
      step_forwardTimes d w c hf]
    simp only [List.length_append, List.length_cons, List.length_nil]
    omega

/-! ## Validation -/

/-- C1: with a non-empty configured user agent, `validateMessage` returns the
invalid-header error exactly for the header maps that are empty, have no
`User-Agent` entry, or have a `User-Agent` entry different from the configured
value, whatever the payload. -/
theorem validateMessage_invalid_header_iff (d : State) (data : Bytes) (header : GoMap)
    (hua : d.userAgent ≠ "") :
    validateMessage d data header = some errInvalidHeader ↔
      (header.entries = [] ∨ (∀ v, (headerUserAgent, v) ∉ header.entries) ∨
        ∃ v, (headerUserAgent, v) ∈ header.entries ∧ v ≠ d.userAgent) := by
  have hne : errEmptyPayload ≠ errInvalidHeader := by decide
  unfold validateMessage GoMap.len GoMap.get
  cases hl : header.entries.lookup headerUserAgent with
  | none =>
    have hno := (lookup_eq_none_iff_not_mem _ _).1 hl
    have : ("" : String) ≠ d.userAgent := fun e => hua e.symm
    simp [this, hno]
  | some v0 =>
    have hm := (lookup_eq_some_iff_mem _ header.nodup _ _).1 hl
    have hnil : header.entries ≠ [] := by
      intro e; rw [e] at hm; simp at hm
    by_cases hv : v0 = d.userAgent
    · have huniq : ∀ v, (headerUserAgent, v) ∈ header.entries → v = d.userAgent := by
        intro v hv1
        have := (lookup_eq_some_iff_mem _ header.nodup _ _).2 hv1
        rw [hl] at this
        exact (Option.some.inj this) ▸ hv
      have h1 : ¬ ∀ v, (headerUserAgent, v) ∉ header.entries := fun h => h v0 hm
      have h2 : ¬ ∃ v, (headerUserAgent, v) ∈ header.entries ∧ v ≠ d.userAgent :=
        fun ⟨v, hv1, hv2⟩ => hv2 (huniq v hv1)
      simp only [Option.getD_some, hv, ne_eq, not_true_eq_false, or_false,
        List.length_eq_zero, hnil, if_false, h1, h2]
      split <;> simp [hne]
    · have h3 : ∃ v, (headerUserAgent, v) ∈ header.entries ∧ v ≠ d.userAgent := ⟨v0, hm, hv⟩
      simp [hv, h3]

/-- Witness for C1: a header map whose user agent is `curl` is rejected by a
dispatcher configured with `bot`. -/
theorem validateMessage_invalid_header_iff_witness :
    validateMessage (newDispatcher sampleCfg) [1] otherHeader = some errInvalidHeader :=
  (validateMessage_invalid_header_iff (newDispatcher sampleCfg) [1] otherHeader
    (by decide)).2 (Or.inr (Or.inr ⟨"curl", by decide, by decide⟩))

/-- C2, as stated, fails: an empty payload with an empty header map, and one
with a mismatching user agent, get the invalid-header error. -/
theorem validateMessage_empty_payload_counterexample :
    validateMessage (newDispatcher sampleCfg) [] emptyHeader = some errInvalidHeader ∧
    validateMessage (newDispatcher sampleCfg) [] otherHeader = some errInvalidHeader ∧
    validateMessage (newDispatcher sampleCfg) [] emptyHeader ≠ some errEmptyPayload ∧
    validateMessage (newDispatcher sampleCfg) [] otherHeader ≠ some errEmptyPayload := by
  decide

/-- C2, amended: a message with a zero-length payload is always rejected, with
the empty-payload error when the header map is non-empty and its `User-Agent`
lookup equals the configured value, with the invalid-header error otherwise. -/
theorem validateMessage_empty_payload (d : State) (data : Bytes) (header : GoMap)
    (hdata : data.length = 0) :
    (header.len ≠ 0 ∧ header.get headerUserAgent = d.userAgent →
      validateMessage d data header = some errEmptyPayload) ∧
    (header.len = 0 ∨ header.get headerUserAgent ≠ d.userAgent →
      validateMessage d data header = some errInvalidHeader) := by
  unfold validateMessage
  constructor
  · rintro ⟨h1, h2⟩
    simp [h1, h2, hdata]
  · intro h
    simp [h]

/-- Witness for C2 amended: an empty payload under the expected user agent. -/
theorem validateMessage_empty_payload_witness :
    validateMessage (newDispatcher sampleCfg) [] botHeader = some errEmptyPayload :=
  (validateMessage_empty_payload (newDispatcher sampleCfg) [] botHeader rfl).1
    ⟨by decide, by decide⟩

/-! ## `handle` -/

/-- C3: when `validateMessage` rejects the message, `handle` returns that error
and changes nothing: no forward, no sleep, no ceiling read, the clock, `sentNum`
and `startTime` as before. -/
theorem handle_rejected (d : State) (env : Env) (w : World) (data : Bytes) (header : GoMap)
    (err : String) (h : validateMessage d data header = some err) :
    handle d env w data header = (some err, d, w) ∧
    forwards (handle d env w data header).2.2.trace = forwards w.trace ∧
    sleeps (handle d env w data header).2.2.trace = sleeps w.trace ∧
    (handle d env w data header).2.1.sentNum = d.sentNum ∧
    (handle d env w data header).2.1.startTime = d.startTime := by
  have e : handle d env w data header = (some err, d, w) := by
    unfold handle
    rw [h]
  rw [e]
  exact ⟨rfl, rfl, rfl, rfl, rfl⟩

/-- Witness for C3: an empty payload under the expected user agent. -/
theorem handle_rejected_witness :
    handle (newDispatcher sampleCfg) (okEnv 3) ⟨7, []⟩ [] botHeader =
      (some errEmptyPayload, newDispatcher sampleCfg, ⟨7, []⟩) :=
  (handle_rejected (newDispatcher sampleCfg) (okEnv 3) ⟨7, []⟩ [] botHeader
    errEmptyPayload (by decide)).1

/-- C4: when the forward of a valid message fails, `dispatch` leaves `sentNum`
unchanged, `sentNum` after `handle` is not the old value plus one (neither as an
integer nor as a wrapped Go `int`), and `handle` returns `nil`. -/
theorem handle_forward_failed_counter (d : State) (env : Env) (w : World) (data : Bytes)
    (header : GoMap) (e : String)
    (hv : validateMessage d data header = none)
    (hs : (send d env w data header).1 = some e) :
    (dispatch d env w data header).1.sentNum = d.sentNum ∧
    (handle d env w data header).2.1.sentNum ≠ d.sentNum + 1 ∧
    (-2 ^ 63 ≤ d.sentNum ∧ d.sentNum < 2 ^ 63 →
      (handle d env w data header).2.1.sentNum ≠ wrapInt64 (d.sentNum + 1)) ∧
    (handle d env w data header).1 = none := by
  rw [handle_valid d env w data header hv, dispatch_failed d env w data header e hs]
  refine ⟨rfl, ?_, ?_, rfl⟩
  · by_cases h1 : d.sentNum = 1
    · rw [speedControl_one _ _ _ h1]; simp
    · cases hsz : env.size with
      | error e1 => rw [speedControl_error _ _ _ e1 h1 hsz]; simp
      | ok c =>
        by_cases hc : c > 0 ∧ d.sentNum ≥ c
        · rw [speedControl_reached _ _ _ c h1 hsz hc]
          simp only
          omega
        · rw [speedControl_below _ _ _ c h1 hsz hc]; simp
  · intro hr
    unfold wrapInt64
    by_cases h1 : d.sentNum = 1
    · rw [speedControl_one _ _ _ h1]; simp only; omega
    · cases hsz : env.size with
      | error e1 => rw [speedControl_error _ _ _ e1 h1 hsz]; simp only; omega
      | ok c =>
        by_cases hc : c > 0 ∧ d.sentNum ≥ c
        · rw [speedControl_reached _ _ _ c h1 hsz hc]
          simp only
          omega
        · rw [speedControl_below _ _ _ c h1 hsz hc]; simp only; omega

/-- Witness for C4: a valid message whose forward is refused. -/
theorem handle_forward_failed_counter_witness :
    (handle (newDispatcher sampleCfg) (failEnv 3) ⟨7, []⟩ [1] botHeader).2.1.sentNum ≠ 0 + 1 ∧
    (handle (newDispatcher sampleCfg) (failEnv 3) ⟨7, []⟩ [1] botHeader).1 = none :=
  ⟨(handle_forward_failed_counter (newDispatcher sampleCfg) (failEnv 3) ⟨7, []⟩ [1] botHeader
      "connection refused" (by decide) (by decide)).2.1,
   (handle_forward_failed_counter (newDispatcher sampleCfg) (failEnv 3) ⟨7, []⟩ [1] botHeader
      "connection refused" (by decide) (by decide)).2.2.2⟩

/-- C5, as stated, fails. After one forwarded message from a fresh dispatcher
(`sentNum = 1`, window stamped at `sampleNow`), a valid message whose forward
fails 5 ns later moves `startTime` to that instant. After three forwarded
messages under ceiling 5, a valid message whose forward fails under ceiling 2
reads the ceiling, sleeps the rest of the second and resets `sentNum`. -/
theorem handle_forward_failed_counterexample :
    (run (newDispatcher sampleCfg, ⟨sampleNow, []⟩) [okCall 3 0]).1 = counted 1 ∧
    validateMessage (counted 1) [1] botHeader = none ∧
    (send (counted 1) (failEnv 3) ⟨sampleNow + 5, []⟩ [1] botHeader).1 =
      some "connection refused" ∧
    (counted 1).startTime = sampleNow ∧
    (handle (counted 1) (failEnv 3) ⟨sampleNow + 5, []⟩ [1] botHeader).2.1.startTime =
      sampleNow + 5 ∧
    (run (newDispatcher sampleCfg, ⟨sampleNow, []⟩)
      [okCall 5 0, okCall 5 0, okCall 5 0]).1 = counted 3 ∧
    (handle (counted 3) (failEnv 2) ⟨sampleNow + 5, []⟩ [1] botHeader).2.1.sentNum = 0 ∧
    sizeReads (handle (counted 3) (failEnv 2) ⟨sampleNow + 5, []⟩ [1]
      botHeader).2.2.trace = 1 ∧
    sleeps (handle (counted 3) (failEnv 2) ⟨sampleNow + 5, []⟩ [1]
      botHeader).2.2.trace = [999999995] := by
  decide

/-- C5, amended: when the forward of a valid message fails, `handle` returns
`nil` and does not increment `sentNum`, but still runs `speedControl` on the
unchanged counter. With `sentNum = 1` it sets `startTime` to the current instant
without reading the ceiling or sleeping. With `sentNum ≠ 1` it reads the ceiling
once; unless the read succeeds with a ceiling `c` such that `0 < c ≤ sentNum`,
it does not sleep and leaves `sentNum` and `startTime` unchanged; in that
remaining case it sets `sentNum` to 0, leaves `startTime` unchanged and, if
`startTime + second` is still ahead, sleeps once, for the time left until that
instant or for `maxDuration` when the time left exceeds it. -/
theorem handle_forward_failed_speedControl (d : State) (env : Env) (w : World)
    (data : Bytes) (header : GoMap) (e : String)
    (hv : validateMessage d data header = none)
    (hs : (send d env w data header).1 = some e) :
    handle d env w data header = (none, speedControl d env (send d env w data header).2) ∧
    (d.sentNum = 1 →
      (handle d env w data header).2.1 =
        { d with startTime := (send d env w data header).2.clock } ∧
      (handle d env w data header).2.2 = (send d env w data header).2) ∧
    (d.sentNum ≠ 1 →
      sizeReads (handle d env w data header).2.2.trace = sizeReads w.trace + 1) ∧
    (d.sentNum ≠ 1 → (∀ c, env.size = .ok c → ¬ (0 < c ∧ c ≤ d.sentNum)) →
      (handle d env w data header).2.1 = d ∧
      sleeps (handle d env w data header).2.2.trace = sleeps w.trace) ∧
    (d.sentNum ≠ 1 → ∀ c, env.size = .ok c → 0 < c → c ≤ d.sentNum →
      (handle d env w data header).2.1 = { d with sentNum := 0 } ∧
      sleeps (handle d env w data header).2.2.trace = sleeps w.trace ++
        (if (send d env w data header).2.clock < d.startTime + second then
          [min (d.startTime + second - (send d env w data header).2.clock) maxDuration]
        else [])) := by
  have hh : handle d env w data header =
      (none, speedControl d env (send d env w data header).2) := by
    rw [handle_valid d env w data header hv, dispatch_failed d env w data header e hs]
  rw [hh]
  refine ⟨rfl, ?_, ?_, ?_, ?_⟩
  · intro h1
    rw [speedControl_one _ _ _ h1]
    exact ⟨rfl, rfl⟩
  · intro h1
    cases hsz : env.size with
    | error e1 =>
      rw [speedControl_error _ _ _ e1 h1 hsz]
      simp [sizeReads_append, sizeReads, send_sizeReads]
    | ok c =>
      by_cases hc : c > 0 ∧ d.sentNum ≥ c
      · rw [speedControl_reached _ _ _ c h1 hsz hc]
        simp only
        split <;>
          simp [timeSleep, sizeReads_append, sizeReads, send_sizeReads]
      · rw [speedControl_below _ _ _ c h1 hsz hc]
        simp [sizeReads_append, sizeReads, send_sizeReads]
  · intro h1 hno
    cases hsz : env.size with
    | error e1 =>
      rw [speedControl_error _ _ _ e1 h1 hsz]
      simp [sleeps_append, sleeps, send_sleeps]
    | ok c =>
      have hc : ¬ (c > 0 ∧ d.sentNum ≥ c) := fun h => hno c hsz ⟨h.1, h.2⟩
      rw [speedControl_below _ _ _ c h1 hsz hc]
      simp [sleeps_append, sleeps, send_sleeps]
  · intro h1 c hsz hc0 hc1
    rw [speedControl_reached _ _ _ c h1 hsz ⟨hc0, hc1⟩]
    refine ⟨rfl, ?_⟩
    by_cases hd : d.startTime + second > (send d env w data header).2.clock
    · rw [if_pos hd, if_pos (by omega), timeSub_ahead _ _ hd]
      simp [timeSleep, sleeps_append, sleeps, send_sleeps]
    · rw [if_neg hd, if_neg (by omega)]
      simp [sleeps_append, sleeps, send_sleeps]

/-- Witness for C5 amended: the failed forward 5 ns after a first forwarded
message. -/
theorem handle_forward_failed_speedControl_witness :
    handle (counted 1) (failEnv 3) ⟨sampleNow + 5, []⟩ [1] botHeader =
      (none, speedControl (counted 1) (failEnv 3)
        (send (counted 1) (failEnv 3) ⟨sampleNow + 5, []⟩ [1] botHeader).2) :=
  (handle_forward_failed_speedControl (counted 1) (failEnv 3) ⟨sampleNow + 5, []⟩ [1]
    botHeader "connection refused" (by decide) (by decide)).1

/-! ## `speedControl` -/

/-- C9, as stated, fails: with `sentNum = 3` under ceiling 3 and a `startTime`
300 years ahead of the clock, the deadline is 9467107201000000000 ns away, but
`speedControl` sleeps for `maxDuration`, 9223372036854775807 ns, the largest
`time.Duration`. -/
theorem speedControl_throttle_counterexample :
    sleeps (speedControl { counted 3 with startTime := sampleNow + 9467107200000000000 }
      (okEnv 3) ⟨sampleNow, []⟩).2.trace = [9223372036854775807] ∧
    max 0 (({ counted 3 with startTime := sampleNow + 9467107200000000000 } : State).startTime
      + second - sampleNow) = 9467107201000000000 ∧
    (speedControl { counted 3 with startTime := sampleNow + 9467107200000000000 }
      (okEnv 3) ⟨sampleNow, []⟩).2.clock = sampleNow + 9223372036854775807 := by
  decide

/-- C9, amended: with `sentNum ≠ 1` and a successfully read ceiling `c > 0`:
when `sentNum ≥ c`, `speedControl` reads the ceiling and sleeps for exactly
`min (max 0 (startTime + second - now)) maxDuration`: once, until the deadline,
if the deadline is ahead by at most `maxDuration`; once, for `maxDuration`, if
it is further ahead; not at all if it has passed. It then sets `sentNum` to 0
and leaves `startTime` unchanged. When `sentNum < c` it does not sleep and
leaves the dispatcher unchanged. -/
theorem speedControl_throttle (d : State) (env : Env) (w : World) (c : Int)
    (h1 : d.sentNum ≠ 1) (hsz : env.size = .ok c) (hc : 0 < c) :
    (c ≤ d.sentNum →
      (speedControl d env w).1 = { d with sentNum := 0 } ∧
      (speedControl d env w).1.startTime = d.startTime ∧
      (speedControl d env w).2.clock =
        w.clock + min (max 0 (d.startTime + second - w.clock)) maxDuration ∧
      (speedControl d env w).2.trace = w.trace ++ Event.readSize ::
        (if w.clock < d.startTime + second then
          [Event.sleep (min (d.startTime + second - w.clock) maxDuration)] else []) ∧
      (sleeps (speedControl d env w).2.trace).sum =
        (sleeps w.trace).sum + min (max 0 (d.startTime + second - w.clock)) maxDuration ∧
      (d.startTime + second - w.clock ≤ maxDuration →
        (speedControl d env w).2.clock = w.clock + max 0 (d.startTime + second - w.clock))) ∧
    (d.sentNum < c →
      (speedControl d env w).1 = d ∧
      (speedControl d env w).2.clock = w.clock ∧
      (speedControl d env w).2.trace = w.trace ++ [Event.readSize] ∧
      sleeps (speedControl d env w).2.trace = sleeps w.trace) := by
  have hmax : (0 : Int) ≤ maxDuration := by unfold maxDuration; omega
  constructor
  · intro hge
    rw [speedControl_reached _ _ _ c h1 hsz ⟨hc, hge⟩]
    by_cases hd : d.startTime + second > w.clock
    · rw [if_pos hd, timeSub_ahead _ _ hd, if_pos (by omega), max_eq_right (by omega)]
      refine ⟨rfl, rfl, ?_, ?_, ?_, ?_⟩
      · simp only [timeSleep]
      · simp [timeSleep]
      · simp [timeSleep, sleeps_append, sleeps]
      · intro hle
        simp only [timeSleep]
        rw [min_eq_left hle]
    · rw [if_neg hd, if_neg (by omega), max_eq_left (by omega), min_eq_left hmax]
      refine ⟨rfl, rfl, ?_, ?_, ?_, ?_⟩
      · simp
      · rfl
      · simp [sleeps_append, sleeps]
      · intro _
        simp
  · intro hlt
    rw [speedControl_below _ _ _ c h1 hsz (by omega)]
    refine ⟨rfl, rfl, rfl, ?_⟩
    simp [sleeps_append, sleeps]

/-- Witness for C9 amended: three messages counted under ceiling 3, 0.4 s into
the window: the sleep lasts the remaining 0.6 s. -/
theorem speedControl_throttle_witness :
    (speedControl (counted 3) (okEnv 3) ⟨sampleNow + 400000000, []⟩).2.trace =
      [Event.readSize, Event.sleep 600000000] ∧
    (speedControl (counted 3) (okEnv 3) ⟨sampleNow + 400000000, []⟩).1.sentNum = 0 := by
  have h := (speedControl_throttle (counted 3) (okEnv 3) ⟨sampleNow + 400000000, []⟩ 3
    (by decide) rfl (by decide)).1 (by decide)
  exact ⟨by rw [h.2.2.2.1]; decide, by rw [h.1]⟩

/-- C8: in a run of `handle` calls from any state, with any messages and any
forward outcomes, in which every successful ceiling read returns a value `≤ 0`,
no call sleeps, and `sentNum` is never reset: at the end it is the initial value
incremented (as a Go `int`) once per forwarded message. -/
theorem run_ceiling_nonpositive (dw : State × World) (cs : List Call)
    (h : ∀ c ∈ cs, ∀ v, c.env.size = .ok v → v ≤ 0) :
    sleeps (run dw cs).2.trace = sleeps dw.2.trace ∧
    (run dw cs).1.sentNum =
      (fun s => wrapInt64 (s + 1))^[(cs.filter (forwarded dw.1)).length] dw.1.sentNum := by
  induction cs generalizing dw with
  | nil => exact ⟨rfl, rfl⟩
  | cons c cs ih =>
    have hc := step_disabled dw c (h c (List.mem_cons_self _ _))
    have ih1 := ih (step dw c) (fun c1 hc1 => h c1 (List.mem_cons_of_mem _ hc1))
    have hfield : ∀ c1, forwarded (step dw c).1 c1 = forwarded dw.1 c1 := by
      intro c1
      have hf := handle_fields dw.1 c.env { dw.2 with clock := dw.2.clock + c.gap }
        c.data c.header
      exact forwarded_eq dw.1 (step dw c).1 c1 hf.1 hf.2
    have hfun : forwarded (step dw c).1 = forwarded dw.1 := funext hfield
    have hrun : run dw (c :: cs) = run (step dw c) cs := rfl
    rw [hrun, ih1.1, ih1.2, hc.1, hc.2, hfun]
    refine ⟨rfl, ?_⟩
    by_cases hf : forwarded dw.1 c = true
    · simp [List.filter_cons, hf]
    · simp [List.filter_cons, hf]

/-- Witness for C8: four rapid valid messages under ceiling 0 are all forwarded
without any sleep and counted. -/
theorem run_ceiling_nonpositive_witness :
    sleeps (run (newDispatcher sampleCfg, ⟨0, []⟩)
      [okCall 0 0, okCall 0 0, okCall 0 0, okCall 0 0]).2.trace = [] ∧
    (run (newDispatcher sampleCfg, ⟨0, []⟩)
      [okCall 0 0, okCall 0 0, okCall 0 0, okCall 0 0]).1.sentNum = 4 := by
  have h := run_ceiling_nonpositive (newDispatcher sampleCfg, ⟨0, []⟩)
    [okCall 0 0, okCall 0 0, okCall 0 0, okCall 0 0]
    (by
      intro c hc v hv
      simp only [List.mem_cons, List.mem_singleton, List.not_mem_nil, or_false, or_self] at hc
      subst hc
      cases hv
      decide)
  exact ⟨h.1, by rw [h.2]; decide⟩

/-! ## `send` -/

/-- C10, as stated, fails: the entry `x-id: 1` is not on the request under the
name `x-id` but under `X-Id`, a name that the input map does not have; and the
entries `x-id: 1` and `X-Id: 2` end up under the one name `X-Id`. -/
theorem send_headers_counterexample :
    forwards (send (newDispatcher sampleCfg) (okEnv 3) ⟨0, []⟩ [1] lowerHeader).2.trace =
      [{ method := "POST", url := "http://robot/hook", body := [1],
         header := [("User-Agent", ["bot"]), ("X-Id", ["1"])] }] ∧
    HttpHeader.values [("User-Agent", ["bot"]), ("X-Id", ["1"])] "x-id" = [] ∧
    lowerHeader.entries.lookup "X-Id" = none ∧
    forwards (send (newDispatcher sampleCfg) (okEnv 3) ⟨0, []⟩ [1] mixedHeader).2.trace =
      [{ method := "POST", url := "http://robot/hook", body := [1],
         header := [("X-Id", ["1", "2"])] }] := by
  decide

/-- C10, amended: when request construction succeeds, `send` hands the HTTP
client exactly one request, a POST to the configured endpoint whose body is the
payload, and returns the client's answer; under each name `k` the request's
headers hold exactly the values of the input entries whose name has the
canonical MIME form `k`, in the order of iteration. So every input value is on
the request under the canonical form of its name, none is dropped or
overwritten, and no value is there that the input map does not have. -/
theorem send_request (d : State) (env : Env) (w : World) (data : Bytes) (header : GoMap)
    (hurl : env.parseURL d.endpoint = none) :
    ∃ req, (send d env w data header).2.trace = w.trace ++ [Event.forward w.clock req] ∧
      (send d env w data header).1 = env.forwardTo req ∧
      req.method = methodPost ∧ req.url = d.endpoint ∧ req.body = data ∧
      (∀ k, req.header.values k =
        (header.entries.filter
          (fun kv => decide (canonicalMIMEHeaderKey kv.1 = k))).map Prod.snd) ∧
      (∀ k v, (k, v) ∈ header.entries → v ∈ req.header.values (canonicalMIMEHeaderKey k)) ∧
      (∀ k v, v ∈ req.header.values k →
        ∃ k1, (k1, v) ∈ header.entries ∧ canonicalMIMEHeaderKey k1 = k) := by
  refine ⟨addHeaders { method := methodPost, url := d.endpoint, body := data, header := [] }
    header.entries, ?_, ?_, ?_, ?_, ?_, ?_, ?_, ?_⟩
  · rw [send_eq d env w data header hurl]
  · rw [send_eq d env w data header hurl]
  · exact (addHeaders_fields _ _).1
  · exact (addHeaders_fields _ _).2.1
  · exact (addHeaders_fields _ _).2.2
  · intro k
    rw [addHeaders_values]
    simp [HttpHeader.values]
  · intro k v hkv
    rw [addHeaders_values]
    simp only [HttpHeader.values, List.lookup, Option.getD_none, List.nil_append,
      List.mem_map, List.mem_filter, decide_eq_true_eq]
    exact ⟨(k, v), ⟨hkv, rfl⟩, rfl⟩
  · intro k v hv
    rw [addHeaders_values] at hv
    simp only [HttpHeader.values, List.lookup, Option.getD_none, List.nil_append,
      List.mem_map, List.mem_filter, decide_eq_true_eq] at hv
    obtain ⟨⟨k1, v1⟩, ⟨hm, hk⟩, hv1⟩ := hv
    simp only at hv1 hk
    subst hv1
    exact ⟨k1, hm, hk⟩

/-- Witness for C10 amended: the request built for a map with a lower-case
name. -/
theorem send_request_witness :
    ∃ req, (send (newDispatcher sampleCfg) (okEnv 3) ⟨0, []⟩ [1] lowerHeader).2.trace =
        [] ++ [Event.forward 0 req] ∧
      req.method = methodPost ∧ req.url = "http://robot/hook" ∧ req.body = [1] ∧
      "1" ∈ req.header.values (canonicalMIMEHeaderKey "x-id") := by
  obtain ⟨req, h1, _, h3, h4, h5, _, h7, _⟩ :=
    send_request (newDispatcher sampleCfg) (okEnv 3) ⟨0, []⟩ [1] lowerHeader rfl
  exact ⟨req, h1, h3, h4, h5, h7 "x-id" "1" (by decide)⟩

/-! ## The window of `speedControl` in a run -/

/-- C6, as stated, fails: with ceiling 3 and valid, forwarded messages 0.1 s
apart, the first two calls do not sleep, the call for the 3rd message sleeps
(0.8 s, until one second after the window start) and resets the counter, and
the call for the 4th message does not sleep; with ceiling 2 the call for the
2nd message sleeps. -/
theorem ceiling_three_counterexample :
    sleeps (run (newDispatcher sampleCfg, ⟨0, []⟩)
      [okCall 3 100000000, okCall 3 100000000]).2.trace = [] ∧
    sleeps (run (newDispatcher sampleCfg, ⟨0, []⟩)
      [okCall 3 100000000, okCall 3 100000000, okCall 3 100000000]).2.trace = [800000000] ∧
    (run (newDispatcher sampleCfg, ⟨0, []⟩)
      [okCall 3 100000000, okCall 3 100000000, okCall 3 100000000]).1.sentNum = 0 ∧
    sleeps (run (newDispatcher sampleCfg, ⟨0, []⟩)
      [okCall 3 100000000, okCall 3 100000000, okCall 3 100000000,
        okCall 3 100000000]).2.trace = [800000000] ∧
    sleeps (run (newDispatcher sampleCfg, ⟨0, []⟩)
      [okCall 2 100000000, okCall 2 100000000]).2.trace = [900000000] := by
  decide

/-- C6, amended: with a constant ceiling of 3, from a state with `sentNum = 0`,
for valid and forwarded messages of which the 2nd and 3rd are handled within one
second of the window start stamped by the 1st: the calls for the 1st and 2nd
messages return without sleeping; the call for the 3rd message is the one that
sleeps, until exactly one second after the window start, and resets `sentNum` to
0; the call for the 4th message does not sleep, counts that message alone
(`sentNum = 1`) and stamps a new window start. Likewise with ceiling 2 the call
for the 2nd message is the one that sleeps. -/
theorem ceiling_three_run (d0 : State) (w0 : World) (c1 c2 c3 c4 : Call)
    (h0 : d0.sentNum = 0)
    (hf : forwarded d0 c1 = true ∧ forwarded d0 c2 = true ∧ forwarded d0 c3 = true ∧
      forwarded d0 c4 = true)
    (hsz : c1.env.size = .ok 3 ∧ c2.env.size = .ok 3 ∧ c3.env.size = .ok 3 ∧
      c4.env.size = .ok 3)
    (hfast : (c2.gap : Int) + c2.env.latency + c3.gap + c3.env.latency < second) :
    sleeps (run (d0, w0) [c1]).2.trace = sleeps w0.trace ∧
    (run (d0, w0) [c1]).1.startTime = w0.clock + c1.gap + c1.env.latency ∧
    sleeps (run (d0, w0) [c1, c2]).2.trace = sleeps w0.trace ∧
    sleeps (run (d0, w0) [c1, c2, c3]).2.trace = sleeps w0.trace ++
      [second - ((c2.gap : Int) + c2.env.latency + c3.gap + c3.env.latency)] ∧
    (run (d0, w0) [c1, c2, c3]).2.clock = (run (d0, w0) [c1]).1.startTime + second ∧
    (run (d0, w0) [c1, c2, c3]).1.sentNum = 0 ∧
    sleeps (run (d0, w0) [c1, c2, c3, c4]).2.trace =
      sleeps (run (d0, w0) [c1, c2, c3]).2.trace ∧
    (run (d0, w0) [c1, c2, c3, c4]).1.sentNum = 1 ∧
    (run (d0, w0) [c1, c2, c3, c4]).1.startTime =
      (run (d0, w0) [c1, c2, c3]).2.clock + c4.gap + c4.env.latency ∧
    (∀ b1 b2 : Call, forwarded d0 b1 = true → forwarded d0 b2 = true →
      b1.env.size = .ok 2 → b2.env.size = .ok 2 →
      (b2.gap : Int) + b2.env.latency < second →
      sleeps (run (d0, w0) [b1]).2.trace = sleeps w0.trace ∧
      sleeps (run (d0, w0) [b1, b2]).2.trace = sleeps w0.trace ++
        [second - ((b2.gap : Int) + b2.env.latency)] ∧
      (run (d0, w0) [b1, b2]).1.sentNum = 0) := by
  obtain ⟨hf1, hf2, hf3, hf4⟩ := hf
  obtain ⟨hz1, hz2, hz3, hz4⟩ := hsz
  have e1 : run (d0, w0) [c1] = step (d0, w0) c1 := rfl
  have e2 : run (d0, w0) [c1, c2] = step (step (d0, w0) c1) c2 := rfl
  have e3 : run (d0, w0) [c1, c2, c3] = step (step (step (d0, w0) c1) c2) c3 := rfl
  have e4 : run (d0, w0) [c1, c2, c3, c4] =
      step (step (step (step (d0, w0) c1) c2) c3) c4 := rfl
  have s1 := step_first d0 w0 c1 hf1 h0
  have s2 := step_counted { d0 with sentNum := 1, startTime := w0.clock + c1.gap + c1.env.latency }
    (afterForward d0 w0 c1) c2 3 ((forwarded_eq d0 _ c2 rfl rfl).trans hf2) hz2
    (by simp) (by simp) (by norm_num)
  rw [← s1] at s2
  simp only [Int.reduceAdd] at s2
  have s3 := step_throttled
    { d0 with sentNum := 2, startTime := w0.clock + c1.gap + c1.env.latency }
    { afterForward { d0 with sentNum := 1, startTime := w0.clock + c1.gap + c1.env.latency }
        (afterForward d0 w0 c1) c2 with
      trace := (afterForward
        { d0 with sentNum := 1, startTime := w0.clock + c1.gap + c1.env.latency }
        (afterForward d0 w0 c1) c2).trace ++ [Event.readSize] }
    c3 3 ((forwarded_eq d0 _ c3 rfl rfl).trans hf3) hz3 (by norm_num)
    (by simp) (by simp) (by norm_num)
  rw [← s2] at s3
  have hd : w0.clock + c1.gap + c1.env.latency + second >
      w0.clock + c1.gap + c1.env.latency + c2.gap + c2.env.latency + c3.gap +
        c3.env.latency := by omega
  have hsub : timeSub (w0.clock + c1.gap + c1.env.latency + second)
      (w0.clock + c1.gap + c1.env.latency + c2.gap + c2.env.latency + c3.gap +
        c3.env.latency) =
      w0.clock + c1.gap + c1.env.latency + second -
        (w0.clock + c1.gap + c1.env.latency + c2.gap + c2.env.latency + c3.gap +
          c3.env.latency) :=
    timeSub_small _ _ (by omega) (by omega)
  simp only [afterForward, if_pos hd, hsub] at s3
  have s4 := step_first { d0 with sentNum := 0, startTime := w0.clock + c1.gap + c1.env.latency }
    (step (step (step (d0, w0) c1) c2) c3).2 c4
    ((forwarded_eq d0 _ c4 rfl rfl).trans hf4) rfl
  have s3a : (step (step (step (d0, w0) c1) c2) c3) =
      ({ d0 with sentNum := 0, startTime := w0.clock + c1.gap + c1.env.latency },
        (step (step (step (d0, w0) c1) c2) c3).2) := by
    rw [s3]
  rw [← s3a] at s4
  refine ⟨?_, ?_, ?_, ?_, ?_, ?_, ?_, ?_, ?_, ?_⟩
  · rw [e1, s1]; simp [afterForward, sleeps_append, sleeps]
  · rw [e1, s1]
  · rw [e2, s2]; simp [afterForward, sleeps_append, sleeps]
  · rw [e3, s3]
    simp only [timeSleep, sleeps_append, sleeps, List.append_nil, List.append_cancel_left_eq,
      List.cons.injEq, and_true]
    omega
  · rw [e3, s3, e1, s1]
    simp only [timeSleep]
    omega
  · rw [e3, s3]
  · rw [e4, s4, e3]
    simp [afterForward, sleeps_append, sleeps]
  · rw [e4, s4]
  · rw [e4, s4, e3]
  · intro b1 b2 hb1 hb2 hs1 hs2 hb
    have r1 : run (d0, w0) [b1] = step (d0, w0) b1 := rfl
    have r2 : run (d0, w0) [b1, b2] = step (step (d0, w0) b1) b2 := rfl
    have t1 := step_first d0 w0 b1 hb1 h0
    have t2 := step_throttled
      { d0 with sentNum := 1, startTime := w0.clock + b1.gap + b1.env.latency }
      (afterForward d0 w0 b1) b2 2 ((forwarded_eq d0 _ b2 rfl rfl).trans hb2) hs2
      (by norm_num) (by simp) (by simp) (by norm_num)
    rw [← t1] at t2
    have hd2 : w0.clock + b1.gap + b1.env.latency + second >
        w0.clock + b1.gap + b1.env.latency + b2.gap + b2.env.latency := by omega
    have hsub2 : timeSub (w0.clock + b1.gap + b1.env.latency + second)
        (w0.clock + b1.gap + b1.env.latency + b2.gap + b2.env.latency) =
        w0.clock + b1.gap + b1.env.latency + second -
          (w0.clock + b1.gap + b1.env.latency + b2.gap + b2.env.latency) :=
      timeSub_small _ _ (by omega) (by omega)
    simp only [afterForward, if_pos hd2, hsub2] at t2
    refine ⟨?_, ?_, ?_⟩
    · rw [r1, t1]; simp [afterForward, sleeps_append, sleeps]
    · rw [r2, t2]
      simp only [timeSleep, sleeps_append, sleeps, List.append_nil, List.append_cancel_left_eq,
        List.cons.injEq, and_true]
      omega
    · rw [r2, t2]

/-- Witness for C6 amended: four valid messages 0.1 s apart under ceiling 3;
the call for the 3rd sleeps the remaining 0.8 s. -/
theorem ceiling_three_run_witness :
    sleeps (run (newDispatcher sampleCfg, ⟨0, []⟩)
      [okCall 3 100000000, okCall 3 100000000, okCall 3 100000000]).2.trace =
      sleeps [] ++ [second - (((okCall 3 100000000).gap : Int) +
        (okCall 3 100000000).env.latency + (okCall 3 100000000).gap +
        (okCall 3 100000000).env.latency)] :=
  (ceiling_three_run (newDispatcher sampleCfg) ⟨0, []⟩ (okCall 3 100000000)
    (okCall 3 100000000) (okCall 3 100000000) (okCall 3 100000000) rfl
    ⟨by decide, by decide, by decide, by decide⟩ ⟨rfl, rfl, rfl, rfl⟩ (by decide)).2.2.2.1

/-- C7, as stated, fails. With ceiling 1, two messages 1 ns apart are both
forwarded within the interval starting at the first forward. With ceiling 2 and
arrivals at 0 s, 0.9 s and then as fast as the sleep allows, three forwards
fall in the second that starts at 0.9 s. -/
theorem rate_ceiling_counterexample :
    forwardTimes (run (newDispatcher sampleCfg, ⟨0, []⟩) [okCall 1 1, okCall 1 1]).2.trace =
      [1, 2] ∧
    countIn 1 (forwardTimes
      (run (newDispatcher sampleCfg, ⟨0, []⟩) [okCall 1 1, okCall 1 1]).2.trace) = 2 ∧
    forwardTimes (run (newDispatcher sampleCfg, ⟨0, []⟩)
      [okCall 2 0, okCall 2 900000000, okCall 2 1, okCall 2 1]).2.trace =
      [0, 900000000, 1000000001, 1000000002] ∧
    countIn 900000000 (forwardTimes (run (newDispatcher sampleCfg, ⟨0, []⟩)
      [okCall 2 0, okCall 2 900000000, okCall 2 1, okCall 2 1]).2.trace) = 3 := by
  decide

/-- C7, amended: for every constant positive ceiling `k` (a Go `int`) and every
sequential run of `handle` on valid, forwarded messages from a state with
`sentNum = 0`, with a clock that only moves forward and that a sleep advances by
its duration, every message is forwarded and the number of forwards inside any
half-open one-second interval never exceeds `2 * max k 2 - 1`. -/
theorem run_rate_bound (d0 : State) (t0 : Int) (k : Int) (cs : List Call)
    (h0 : d0.sentNum = 0) (hk : 0 < k) (hk2 : k < 2 ^ 63)
    (hcs : ∀ c ∈ cs, forwarded d0 c = true ∧ c.env.size = .ok k) (T : Int) :
    (forwardTimes (run (d0, ⟨t0, []⟩) cs).2.trace).length = cs.length ∧
    (countIn T (forwardTimes (run (d0, ⟨t0, []⟩) cs).2.trace) : Int) ≤ 2 * max k 2 - 1 := by
  constructor
  · rw [run_forwardTimes_length cs d0 ⟨t0, []⟩ (fun c hc => (hcs c hc).1)]
    simp [forwardTimes]
  · have hpos : 0 ≤ max k 2 := le_trans (by norm_num) (le_max_right k 2)
    have hm : (((max k 2).toNat : Nat) : Int) = max k 2 := Int.toNat_of_nonneg hpos
    have inv0 : WindowInv (max k 2).toNat d0 ⟨t0, []⟩ [] [] [] := by
      have h2 : (2 : Int) ≤ max k 2 := le_max_right k 2
      refine { times := rfl, count := by simpa using h0, curlt := ?_, prevle := by simp,
               clock := by simp, ordered := by simp, oldle := by simp, spaced := by simp,
               fresh := fun _ => rfl, stamp := by simp, stamped := fun h => absurd rfl h,
               bound := ?_ }
      · simp only [List.length_nil]; omega
      · intro T1
        simp [countIn]
    obtain ⟨old1, prev1, cur1, inv1⟩ :=
      windowInv_run (max k 2).toNat k hm hk hk2 cs d0 ⟨t0, []⟩ [] [] [] inv0 hcs
    have hb := inv1.bound T
    rw [← inv1.times] at hb
    have h2 : (2 : Int) ≤ max k 2 := le_max_right k 2
    omega

/-- Witness for C7 amended: the four deliveries under ceiling 2 of the
counterexample reach the bound of three forwards in a second. -/
theorem run_rate_bound_witness :
    (countIn 900000000 (forwardTimes (run (newDispatcher sampleCfg, ⟨0, []⟩)
      [okCall 2 0, okCall 2 900000000, okCall 2 1, okCall 2 1]).2.trace) : Int) ≤
      2 * max 2 2 - 1 :=
  (run_rate_bound (newDispatcher sampleCfg) 0 2
    [okCall 2 0, okCall 2 900000000, okCall 2 1, okCall 2 1] rfl (by decide) (by decide)
    (by
      intro c hc
      simp only [List.mem_cons, List.mem_singleton, List.not_mem_nil, or_false] at hc
      rcases hc with h | h | h | h <;> subst h <;> exact ⟨by decide, rfl⟩)
    900000000).2

end Dispatcher
